import Mathlib

/-!
Verification of the wopr-plugin-skills skill discovery/validation core.

The TypeScript sources embedded here:
* `src/skill-frontmatter-parser.ts` — `parseSkillFrontmatter`, `validateSkillName`,
  `validateSkillDescription`, `validateFrontmatterFields`;
* `src/skills.ts` — `resolveCommandDispatch`, `resolveWoprMetadata`,
  `loadSkillFromFile`, `matchesPattern`, `discoverSkills` (merge loop),
  `sanitizeSkillCommandName`, `resolveUniqueSkillCommandName`, `buildSkillCommandSpecs`;
* `src/skills-repository.ts` — `enableSkillAsync`, `disableSkillAsync`.

JavaScript strings are modelled as Lean `String` (sequences of Unicode scalar
values); `String.prototype.length` and `.slice` count UTF-16 code units, so the
embedding counts code units explicitly (`utf16Len`, `utf16Take`).  A `.slice`
that would split a surrogate pair is modelled by stopping before the pair
(lone surrogates are not representable as Lean characters).
-/

namespace WoprSkills

/-- Whitespace characters stripped by `String.prototype.trim` (the ASCII ones
plus the common Unicode ones; rarer Zs code points are omitted, none of which
appear in this repository's data). -/
def isJsWhitespace (c : Char) : Bool :=
  c = ' ' || c = '\t' || c = '\n' || c = '\r' ||
  c = '\x0b' || c = '\x0c' || c = '\u00A0' || c = '\uFEFF' || c = '\u2028' || c = '\u2029'

/-- `String.prototype.trim` on a character list. -/
def jsTrimList (cs : List Char) : List Char :=
  ((cs.dropWhile isJsWhitespace).reverse.dropWhile isJsWhitespace).reverse

/-- `String.prototype.trim`. -/
def jsTrim (s : String) : String := ⟨jsTrimList s.data⟩

/-- UTF-16 code-unit length of a string, i.e. JavaScript `String.prototype.length`. -/
def utf16Len (s : String) : Nat :=
  s.data.foldl (fun n c => n + (if c.val < 0x10000 then 1 else 2)) 0

/-- Take the first `n` UTF-16 code units of a character list, i.e. JavaScript
`.slice(0, n)`.  A surrogate pair straddling the cut is dropped (JavaScript
would keep a lone high surrogate, which a Lean `Char` cannot represent). -/
def utf16TakeList : List Char → Nat → List Char
  | [], _ => []
  | _ :: _, 0 => []
  | c :: rest, Nat.succ n =>
    if c.val < 0x10000 then c :: utf16TakeList rest n
    else if 2 ≤ n + 1 then c :: utf16TakeList rest (n - 1)
    else []

/-- JavaScript `.slice(0, n)` on a string. -/
def utf16Take (s : String) (n : Nat) : String := ⟨utf16TakeList s.data n⟩

/-- Split a character list on a separator character (JavaScript
`String.prototype.split` with a single-character separator). -/
def splitOnChar (sep : Char) : List Char → List (List Char)
  | [] => [[]]
  | c :: t =>
    if c = sep then [] :: splitOnChar sep t
    else
      match splitOnChar sep t with
      | l :: ls => (c :: l) :: ls
      | [] => [[c]]

/-- Does `hay` contain `needle` as a contiguous substring? -/
def listContainsSub (needle : List Char) : List Char → Bool
  | [] => needle.isEmpty
  | c :: cs => List.isPrefixOf needle (c :: cs) || listContainsSub needle cs

/-- ASCII lower-casing, modelling `String.prototype.toLowerCase` for the
characters that occur here (non-ASCII upper-case letters are not folded; in
the command-name sanitizer every non-`[a-z0-9_]` character is collapsed to
`_` in the next step regardless). -/
def toLowerAscii (s : String) : String := ⟨s.data.map Char.toLower⟩

-- ===========================================================================
-- JSON values and `JSON.parse` (used for the `metadata` and `allowed-tools`
-- frontmatter fields).  Number literals keep their lexeme; `JSON.parse` would
-- convert them to floats, but no code under verification compares or computes
-- with parsed numbers.
-- ===========================================================================

/-- A JavaScript value producible by `JSON.parse` (also used for the plain
string values of the other frontmatter fields and for comma-split tool
lists, which in JavaScript are indistinguishable arrays of strings). -/
inductive Json where
  | str (s : String)
  | num (lexeme : String)
  | jbool (b : Bool)
  | jnull
  | arr (elems : List Json)
  | obj (fields : List (String × Json))
deriving Repr, Inhabited

/-- The `{` character (written by code point to keep brace characters out of
literals). -/
def lbrace : Char := Char.ofNat 123

/-- The `}` character. -/
def rbrace : Char := Char.ofNat 125

/-- JSON insignificant whitespace. -/
def isJsonWs (c : Char) : Bool := c = ' ' || c = '\t' || c = '\n' || c = '\r'

/-- Skip JSON insignificant whitespace. -/
def skipJsonWs (cs : List Char) : List Char := cs.dropWhile isJsonWs

/-- Value of a hex digit. -/
def hexVal (c : Char) : Option Nat :=
  if '0' ≤ c ∧ c ≤ '9' then some (c.toNat - '0'.toNat)
  else if 'a' ≤ c ∧ c ≤ 'f' then some (c.toNat - 'a'.toNat + 10)
  else if 'A' ≤ c ∧ c ≤ 'F' then some (c.toNat - 'A'.toNat + 10)
  else none

/-- Parse exactly four hex digits. -/
def parseHex4 : List Char → Option (Nat × List Char)
  | a :: b :: c :: d :: rest => do
    let va ← hexVal a
    let vb ← hexVal b
    let vc ← hexVal c
    let vd ← hexVal d
    pure (((va * 16 + vb) * 16 + vc) * 16 + vd, rest)
  | _ => none

/-- Decode a `\uXXXX` escape, combining a surrogate pair with a following
`\uXXXX` low surrogate.  A lone surrogate (legal in JavaScript strings but
not representable as a Lean scalar value) becomes U+FFFD. -/
def parseUnicodeEscape (cs : List Char) : Option (Char × List Char) := do
  let (n, rest) ← parseHex4 cs
  if 0xD800 ≤ n ∧ n ≤ 0xDBFF then
    match rest with
    | '\\' :: 'u' :: rest2 =>
      match parseHex4 rest2 with
      | some (lo, rest3) =>
        if 0xDC00 ≤ lo ∧ lo ≤ 0xDFFF then
          pure (Char.ofNat (0x10000 + (n - 0xD800) * 0x400 + (lo - 0xDC00)), rest3)
        else pure (Char.ofNat 0xFFFD, rest)
      | none => pure (Char.ofNat 0xFFFD, rest)
    | _ => pure (Char.ofNat 0xFFFD, rest)
  else if 0xDC00 ≤ n ∧ n ≤ 0xDFFF then pure (Char.ofNat 0xFFFD, rest)
  else pure (Char.ofNat n, rest)

/-- Parse the remainder of a JSON string literal (the opening quote already
consumed), returning the decoded characters and the rest of the input. -/
def parseJsonString : Nat → List Char → Option (List Char × List Char)
  | 0, _ => none
  | _, [] => none
  | fuel + 1, c :: rest =>
    if c = '"' then some ([], rest)
    else if c = '\\' then
      match rest with
      | [] => none
      | e :: rest2 =>
        let step (d : Char) (rs : List Char) : Option (List Char × List Char) :=
          (parseJsonString fuel rs).map fun (s, r) => (d :: s, r)
        if e = '"' then step '"' rest2
        else if e = '\\' then step '\\' rest2
        else if e = '/' then step '/' rest2
        else if e = 'b' then step '\x08' rest2
        else if e = 'f' then step '\x0c' rest2
        else if e = 'n' then step '\n' rest2
        else if e = 'r' then step '\r' rest2
        else if e = 't' then step '\t' rest2
        else if e = 'u' then
          match parseUnicodeEscape rest2 with
          | some (d, rest3) => step d rest3
          | none => none
        else none
    else if c.val < 0x20 then none
    else (parseJsonString fuel rest).map fun (s, r) => (c :: s, r)

/-- Digit run. -/
def takeDigits (cs : List Char) : List Char × List Char :=
  (cs.takeWhile Char.isDigit, cs.dropWhile Char.isDigit)

/-- Parse a JSON number literal (`-?(0|[1-9][0-9]*)(\.[0-9]+)?([eE][+-]?[0-9]+)?`),
returning its lexeme. -/
def parseJsonNumber (cs : List Char) : Option (List Char × List Char) := do
  let (sign, cs1) := match cs with
    | '-' :: t => (['-'], t)
    | t => (([] : List Char), t)
  let (intPart, cs2) ←
    match cs1 with
    | '0' :: t => some (['0'], t)
    | c :: _ => if c.isDigit then some (takeDigits cs1) else none
    | [] => none
  let (fracPart, cs3) ←
    match cs2 with
    | '.' :: t =>
      match takeDigits t with
      | ([], _) => none
      | (ds, r) => some ('.' :: ds, r)
    | _ => some (([] : List Char), cs2)
  let (expPart, cs4) ←
    match cs3 with
    | c :: t =>
      if c = 'e' ∨ c = 'E' then
        let (esign, t2) := match t with
          | '+' :: u => (['+'], u)
          | '-' :: u => (['-'], u)
          | u => (([] : List Char), u)
        match takeDigits t2 with
        | ([], _) => none
        | (ds, r) => some (c :: (esign ++ ds), r)
      else some (([] : List Char), cs3)
    | [] => some (([] : List Char), cs3)
  pure (sign ++ intPart ++ fracPart ++ expPart, cs4)

/-- Literal keyword prefix check. -/
def matchKeyword (kw : List Char) (cs : List Char) : Option (List Char) :=
  if List.isPrefixOf kw cs then some (cs.drop kw.length) else none

mutual

/-- Parse one JSON value (leading whitespace allowed).  The fuel argument only
bounds recursion depth; `jsonParse` supplies enough fuel for any input (every
two nested calls consume at least one input character). -/
def parseJsonValue : Nat → List Char → Option (Json × List Char)
  | 0, _ => none
  | fuel + 1, cs =>
    match skipJsonWs cs with
    | [] => none
    | c :: rest =>
      if c = '"' then
        (parseJsonString (rest.length + 1) rest).map fun (s, r) => (Json.str ⟨s⟩, r)
      else if c = lbrace then
        parseJsonObjectBody fuel rest
      else if c = '[' then
        parseJsonArrayBody fuel rest
      else if c = 't' then
        (matchKeyword ['t', 'r', 'u', 'e'] (c :: rest)).map fun r => (Json.jbool true, r)
      else if c = 'f' then
        (matchKeyword ['f', 'a', 'l', 's', 'e'] (c :: rest)).map fun r => (Json.jbool false, r)
      else if c = 'n' then
        (matchKeyword ['n', 'u', 'l', 'l'] (c :: rest)).map fun r => (Json.jnull, r)
      else
        (parseJsonNumber (c :: rest)).map fun (lex, r) => (Json.num ⟨lex⟩, r)

/-- Parse an array body (the `[` already consumed). -/
def parseJsonArrayBody : Nat → List Char → Option (Json × List Char)
  | 0, _ => none
  | fuel + 1, cs =>
    match skipJsonWs cs with
    | ']' :: rest => some (Json.arr [], rest)
    | _ => do
      let (xs, r) ← parseJsonArrayItems fuel cs
      pure (Json.arr xs, r)

/-- Parse one or more comma-separated array elements followed by `]`. -/
def parseJsonArrayItems : Nat → List Char → Option (List Json × List Char)
  | 0, _ => none
  | fuel + 1, cs => do
    let (x, r) ← parseJsonValue fuel cs
    match skipJsonWs r with
    | ',' :: r2 => do
      let (xs, r3) ← parseJsonArrayItems fuel r2
      pure (x :: xs, r3)
    | ']' :: r2 => pure ([x], r2)
    | _ => none

/-- Parse an object body (the `{` already consumed). -/
def parseJsonObjectBody : Nat → List Char → Option (Json × List Char)
  | 0, _ => none
  | fuel + 1, cs =>
    match skipJsonWs cs with
    | c :: rest =>
      if c = rbrace then some (Json.obj [], rest)
      else do
        let (fs, r) ← parseJsonObjectItems fuel cs
        pure (Json.obj fs, r)
    | [] => none

/-- Parse one or more comma-separated `"key": value` members followed by `}`. -/
def parseJsonObjectItems : Nat → List Char → Option (List (String × Json) × List Char)
  | 0, _ => none
  | fuel + 1, cs => do
    let r0 := skipJsonWs cs
    match r0 with
    | '"' :: r1 => do
      let (k, r2) ← parseJsonString (r1.length + 1) r1
      match skipJsonWs r2 with
      | ':' :: r3 => do
        let (v, r4) ← parseJsonValue fuel r3
        let r5 := skipJsonWs r4
        match r5 with
        | ',' :: r6 => do
          let (fs, r7) ← parseJsonObjectItems fuel r6
          pure ((⟨k⟩, v) :: fs, r7)
        | c :: r6 =>
          if c = rbrace then pure ([(⟨k⟩, v)], r6) else none
        | [] => none
      | _ => none
    | _ => none

end

/-- JavaScript `JSON.parse` (returns `none` where `JSON.parse` would throw). -/
def jsonParse (s : String) : Option Json :=
  match parseJsonValue (2 * s.data.length + 8) s.data with
  | some (j, rest) => if skipJsonWs rest = [] then some j else none
  | none => none

-- ===========================================================================
-- skill-frontmatter-parser.ts
-- ===========================================================================

/-- A parse/validation warning (`SkillValidationWarning`). -/
structure SkillValidationWarning where
  skillPath : String
  message : String
deriving Repr, DecidableEq, Inhabited

/-- `MAX_NAME_LENGTH`. -/
def MAX_NAME_LENGTH : Nat := 64

/-- `MAX_DESCRIPTION_LENGTH`. -/
def MAX_DESCRIPTION_LENGTH : Nat := 1024

/-- A character allowed by `NAME_PATTERN = /^[a-z0-9-]+$/`. -/
def isNameChar (c : Char) : Bool :=
  ('a' ≤ c && c ≤ 'z') || ('0' ≤ c && c ≤ '9') || c = '-'

/-- `NAME_PATTERN.test(name)`: one or more characters, all from `[a-z0-9-]`. -/
def namePatternTest (s : String) : Bool :=
  !s.data.isEmpty && s.data.all isNameChar

/-- `ALLOWED_FRONTMATTER_FIELDS`. -/
def ALLOWED_FRONTMATTER_FIELDS : List String :=
  ["name", "description", "license", "compatibility", "metadata",
   "allowed-tools", "command-dispatch", "command-tool", "command-arg-mode"]

/-- `validateSkillName(name, parentDirName)`. -/
def validateSkillName (name parentDirName : String) : List String :=
  (if name ≠ parentDirName then
    ["name \"" ++ name ++ "\" does not match parent directory \"" ++ parentDirName ++ "\""]
   else []) ++
  (if utf16Len name > MAX_NAME_LENGTH then
    ["name exceeds 64 characters (" ++ toString (utf16Len name) ++ ")"]
   else []) ++
  (if ¬ namePatternTest name then
    ["name contains invalid characters (must be lowercase a-z, 0-9, hyphens only)"]
   else []) ++
  (if name.data.head? = some '-' ∨ name.data.getLast? = some '-' then
    ["name must not start or end with a hyphen"]
   else []) ++
  (if listContainsSub ['-', '-'] name.data then
    ["name must not contain consecutive hyphens"]
   else [])

/-- `validateSkillDescription(description)`; `none` is JavaScript `undefined`. -/
def validateSkillDescription (description : Option String) : List String :=
  match description with
  | none => ["description is required"]
  | some d =>
    if d = "" ∨ jsTrim d = "" then ["description is required"]
    else if utf16Len d > MAX_DESCRIPTION_LENGTH then
      ["description exceeds 1024 characters (" ++ toString (utf16Len d) ++ ")"]
    else []

/-- `validateFrontmatterFields(keys)`. -/
def validateFrontmatterFields (keys : List String) : List String :=
  keys.filterMap fun key =>
    if key ∈ ALLOWED_FRONTMATTER_FIELDS then none
    else some ("unknown frontmatter field \"" ++ key ++ "\"")

/-- The frontmatter object: insertion-ordered fields with unique keys
(a JavaScript object keyed by the parsed field names). -/
abbrev FmFields := List (String × Json)

/-- Property lookup on the frontmatter object. -/
def fmFind? (fs : FmFields) (k : String) : Option Json :=
  (fs.find? fun p => p.1 = k).map (·.2)

/-- Property assignment on the frontmatter object: overwriting keeps the key's
original insertion position, as JavaScript objects do. -/
def fmSet (fs : FmFields) (k : String) (v : Json) : FmFields :=
  if (fs.find? fun p => p.1 = k).isSome then
    fs.map fun p => if p.1 = k then (k, v) else p
  else fs ++ [(k, v)]

/-- Per-key value decoding in `parseSkillFrontmatter`: `metadata` is
`JSON.parse`d if possible (kept as the raw string otherwise); `allowed-tools`
is `JSON.parse`d if possible and otherwise comma-split with each segment
trimmed; every other key keeps its raw string value. -/
def decodeFmValue (key rawValue : String) : Json :=
  if key = "metadata" then
    match jsonParse rawValue with
    | some j => j
    | none => Json.str rawValue
  else if key = "allowed-tools" then
    match jsonParse rawValue with
    | some j => j
    | none => Json.arr ((splitOnChar ',' rawValue.data).map fun seg => Json.str ⟨jsTrimList seg⟩)
  else Json.str rawValue

/-- Split a line at its first `:` (JavaScript `line.indexOf(":")`), returning
the parts before and after it, or `none` when the line has no colon. -/
def firstColonSplit : List Char → Option (List Char × List Char)
  | [] => none
  | c :: t =>
    if c = ':' then some ([], t)
    else (firstColonSplit t).map fun (a, b) => (c :: a, b)

/-- Process one frontmatter line: lines without a colon are skipped; otherwise
the trimmed key is assigned the decoded trimmed value. -/
def parseYamlLine (fs : FmFields) (line : List Char) : FmFields :=
  match firstColonSplit line with
  | none => fs
  | some (k, v) =>
    let key : String := ⟨jsTrimList k⟩
    fmSet fs key (decodeFmValue key ⟨jsTrimList v⟩)

/-- Parse the lines of a frontmatter block body into the frontmatter object. -/
def parseYamlFields (yaml : String) : FmFields :=
  (splitOnChar '\n' yaml.data).foldl parseYamlLine []

/-- The closing-marker search of the regex
`/^---\n([\s\S]*?)\n---\n?([\s\S]*)$/`: lazily split the input at the first
occurrence of the substring `"\n---"`, returning the text before it and the
text after it. -/
def splitAtCloseMarker : List Char → Option (List Char × List Char)
  | [] => none
  | c :: cs =>
    if List.isPrefixOf ['\n', '-', '-', '-'] (c :: cs) then some ([], (c :: cs).drop 4)
    else (splitAtCloseMarker cs).map fun (pre, post) => (c :: pre, post)

/-- The frontmatter regex match: the content must begin with the line `---`;
the block body then runs to the first occurrence of `"\n---"`; one newline
immediately after that marker is consumed (`\n?`) and the remainder is the
body.  Returns `none` exactly when the regex does not match. -/
def fmSplitBlock (content : String) : Option (String × String) :=
  if List.isPrefixOf ['-', '-', '-', '\n'] content.data then
    match splitAtCloseMarker (content.data.drop 4) with
    | some (yaml, rest) =>
      let body : List Char := match rest with
        | '\n' :: t => t
        | t => t
      some (⟨yaml⟩, ⟨body⟩)
    | none => none
  else none

/-- Result of `parseSkillFrontmatter`. -/
structure ParsedFm where
  fields : FmFields
  body : String
  warnings : List SkillValidationWarning
deriving Repr, Inhabited

/-- `parseSkillFrontmatter(content)`. -/
def parseSkillFrontmatter (content : String) : ParsedFm :=
  match fmSplitBlock content with
  | none => ⟨[], content, []⟩
  | some (yaml, body) =>
    let fields := parseYamlFields yaml
    let warnings := (validateFrontmatterFields (fields.map (·.1))).map
      fun m => ({ skillPath := "", message := m } : SkillValidationWarning)
    ⟨fields, body, warnings⟩

-- ===========================================================================
-- skills.ts — frontmatter resolution helpers and the source loader
-- ===========================================================================

/-- `SkillCommandDispatch` — `kind` is always the literal `"tool"` and is kept
implicit in the structure. -/
structure SkillCommandDispatch where
  toolName : String
  argMode : String
deriving Repr, DecidableEq, Inhabited

/-- A discovered `Skill`.  `metadata` and `allowedTools` carry the raw
JavaScript values the code stores (they are cast, never validated, in the
source). -/
structure Skill where
  name : String
  description : String
  path : String
  baseDir : String
  source : String
  metadata : Option Json := none
  allowedTools : Option Json := none
  commandDispatch : Option SkillCommandDispatch := none
deriving Repr, Inhabited

/-- A `SkillEntry` as built by `loadSkillFromFile` (the invocation policy is
the constant `{disableModelInvocation: false, userInvocable: true}`). -/
structure SkillEntry where
  skill : Skill
  frontmatter : FmFields
  woprMetadata : Option Json
  disableModelInvocation : Bool
  userInvocable : Bool
deriving Repr, Inhabited

/-- Is a frontmatter field a string, i.e. `typeof v === "string"`?  Returns
the string value. -/
def fmGetStr (fs : FmFields) (k : String) : Option String :=
  match fmFind? fs k with
  | some (Json.str s) => some s
  | _ => none

/-- Does a JSON number lexeme denote zero (only `0` and `NaN` are falsy
numbers, and `NaN` cannot come from `JSON.parse`)? -/
def numLexIsZero (lex : String) : Bool :=
  (lex.data.takeWhile fun c => c ≠ 'e' && c ≠ 'E').all fun c => !(c.isDigit && c ≠ '0')

/-- JavaScript truthiness of a parsed JSON value. -/
def jsTruthy : Json → Bool
  | .str s => s ≠ ""
  | .num lex => !numLexIsZero lex
  | .jbool b => b
  | .jnull => false
  | .arr _ => true
  | .obj _ => true

/-- JavaScript property access `v[k]` yielding `undefined` (`none`) on
non-objects and missing keys. -/
def objGet (j : Json) (k : String) : Option Json :=
  match j with
  | .obj fs => fmFind? fs k
  | _ => none

/-- `a || b` on possibly-`undefined` JavaScript values. -/
def jsOrValue (a b : Option Json) : Option Json :=
  match a with
  | some v => if jsTruthy v then some v else b
  | none => b

/-- `resolveWoprMetadata(frontmatter)`: for a falsy `metadata` field, none;
for a string field, `JSON.parse` it (failure gives none) and take
`parsed.wopr || parsed.clawdbot`; for an already-parsed value take
`v.wopr || v.clawdbot`. -/
def resolveWoprMetadata (fs : FmFields) : Option Json :=
  match fmFind? fs "metadata" with
  | none => none
  | some v =>
    if ¬ jsTruthy v then none
    else
      match v with
      | Json.str raw =>
        match jsonParse raw with
        | some parsed => jsOrValue (objGet parsed "wopr") (objGet parsed "clawdbot")
        | none => none
      | _ => jsOrValue (objGet v "wopr") (objGet v "clawdbot")

/-- The normalized dispatch kind: `frontmatter["command-dispatch"]?.trim().toLowerCase()`. -/
def normalizedDispatchKind (fs : FmFields) : Option String :=
  (fmGetStr fs "command-dispatch").map fun s => toLowerAscii (jsTrim s)

/-- `resolveCommandDispatch(frontmatter)`.  The second component records
whether the `logger.warn` for a missing `command-tool` fired. -/
def resolveCommandDispatch (fs : FmFields) : Option SkillCommandDispatch × Bool :=
  if normalizedDispatchKind fs ≠ some "tool" then (none, false)
  else
    match (fmGetStr fs "command-tool").map jsTrim with
    | none => (none, true)
    | some t =>
      if t = "" then (none, true)
      else
        let argMode := (fmGetStr fs "command-arg-mode").map fun s => toLowerAscii (jsTrim s)
        (some { toolName := t
                argMode := if argMode = none ∨ argMode = some "raw" then "raw" else "raw" },
         false)

/-- `node:path.basename` for the slash-separated paths used here (the loader
only applies it to directories of the form `<dir>/<sub>`, never with a
trailing slash). -/
def posixBasename (p : String) : String :=
  ⟨(p.data.reverse.takeWhile fun c => c ≠ '/').reverse⟩

/-- `node:path.dirname` for the slash-separated paths used here. -/
def posixDirname (p : String) : String :=
  ⟨((p.data.reverse.dropWhile fun c => c ≠ '/').drop 1).reverse⟩

/-- The effective name `frontmatter.name || parentDirName`. -/
def derivedSkillName (fs : FmFields) (parentDirName : String) : String :=
  match fmGetStr fs "name" with
  | some s => if s = "" then parentDirName else s
  | none => parentDirName

/-- `loadSkillFromFile(filePath, source)`, with the file's content passed in
place of the `readFileSync` call (the surrounding try/catch only guards file
I/O and is not part of the pure computation). -/
def loadSkillFromFile (filePath content source : String) :
    Option SkillEntry × List SkillValidationWarning :=
  let pf := parseSkillFrontmatter content
  let fmWarnings := pf.warnings.map fun w => { w with skillPath := filePath }
  let skillDir := posixDirname filePath
  let parentDirName := posixBasename skillDir
  let name := derivedSkillName pf.fields parentDirName
  let nameWarnings := (validateSkillName name parentDirName).map
    fun m => ({ skillPath := filePath, message := m } : SkillValidationWarning)
  let descr := fmGetStr pf.fields "description"
  let descWarnings := (validateSkillDescription descr).map
    fun m => ({ skillPath := filePath, message := m } : SkillValidationWarning)
  let warnings := fmWarnings ++ nameWarnings ++ descWarnings
  match descr with
  | none => (none, warnings)
  | some d =>
    if d = "" ∨ jsTrim d = "" then (none, warnings)
    else
      (some
        { skill :=
            { name := name
              description := d
              path := filePath
              baseDir := skillDir
              source := source
              metadata := resolveWoprMetadata pf.fields
              allowedTools := fmFind? pf.fields "allowed-tools"
              commandDispatch := (resolveCommandDispatch pf.fields).1 }
          frontmatter := pf.fields
          woprMetadata := resolveWoprMetadata pf.fields
          disableModelInvocation := false
          userInvocable := true },
       warnings)

-- ===========================================================================
-- skills.ts — pattern matching and the discovery merge loop
-- ===========================================================================

/-- A character matched by the regex `.` (anything but a line terminator). -/
def jsDotMatch (c : Char) : Bool :=
  c ≠ '\n' && c ≠ '\r' && c ≠ '\u2028' && c ≠ '\u2029'

/-- Anchored matching of one glob pattern, by fuel-bounded recursion (each
call shrinks `p.length + s.length`, so the fuel `globMatch` supplies never
runs out). -/
def globMatchFuel : Nat → List Char → List Char → Bool
  | 0, _, _ => false
  | _ + 1, [], s => s.isEmpty
  | fuel + 1, '*' :: ps, [] => globMatchFuel fuel ps []
  | fuel + 1, '*' :: ps, c :: cs =>
    globMatchFuel fuel ps (c :: cs) || (jsDotMatch c && globMatchFuel fuel ('*' :: ps) cs)
  | fuel + 1, '?' :: ps, c :: cs => jsDotMatch c && globMatchFuel fuel ps cs
  | _ + 1, _ :: _, [] => false
  | fuel + 1, pc :: ps, c :: cs => pc = c && globMatchFuel fuel ps cs

/-- Anchored matching of one glob pattern, the regex built by
`matchesPattern`: `*` becomes `.*`, `?` becomes `.`, every other character is
escaped to match literally. -/
def globMatch (p s : List Char) : Bool :=
  globMatchFuel (p.length + s.length + 1) p s

/-- `matchesPattern(name, patterns)`. -/
def matchesPattern (name : String) (patterns : List String) : Bool :=
  patterns.any fun pattern => globMatch pattern.data name.data

/-- The mutable state of the `discoverSkills` merge loop: the insertion-ordered
`skillMap` values, the `realPathSet` in insertion order, and the accumulated
warnings. -/
structure MergeState where
  skills : List Skill
  realPaths : List String
  warnings : List SkillValidationWarning
deriving Repr, Inhabited

/-- The real-path identity key of a skill's metadata file: `realpathSync` when
it succeeds (`rp path = some _`), the nominal path when it throws. -/
def identityKey (rp : String → Option String) (path : String) : String :=
  (rp path).getD path

/-- The collision warning `discoverSkills` records. -/
def collisionWarning (skillPath skillName existingPath : String) : SkillValidationWarning :=
  { skillPath := skillPath
    message := "name collision: \"" ++ skillName ++ "\" already loaded from " ++
      existingPath ++ ", skipping" }

/-- One iteration of the inner loop of `discoverSkills` on an accepted entry:
ignore/include filters, then real-path de-duplication, then name-collision
resolution, then acceptance. -/
def mergeStep (rp : String → Option String) (ignoreSkills includeSkills : List String)
    (st : MergeState) (skill : Skill) : MergeState :=
  if ignoreSkills.length > 0 && matchesPattern skill.name ignoreSkills then st
  else if includeSkills.length > 0 && !matchesPattern skill.name includeSkills then st
  else
    let realPath := identityKey rp skill.path
    if realPath ∈ st.realPaths then st
    else
      match st.skills.find? fun x => x.name = skill.name with
      | some existing =>
        { st with warnings := st.warnings ++ [collisionWarning skill.path skill.name existing.path] }
      | none =>
        { st with skills := st.skills ++ [skill], realPaths := st.realPaths ++ [realPath] }

/-- What `loadSkillsFromDir` contributes for one source directory: its
accepted entries in enumeration order and its warnings. -/
abbrev SourceLoad := List Skill × List SkillValidationWarning

/-- Process one source: append its load warnings, then merge its entries. -/
def runSource (rp : String → Option String) (ignoreSkills includeSkills : List String)
    (st : MergeState) (src : SourceLoad) : MergeState :=
  src.1.foldl (mergeStep rp ignoreSkills includeSkills)
    { st with warnings := st.warnings ++ src.2 }

/-- The full merge over an ordered list of sources, starting from empty
state. -/
def discoverMerge (rp : String → Option String) (ignoreSkills includeSkills : List String)
    (sources : List SourceLoad) : MergeState :=
  sources.foldl (runSource rp ignoreSkills includeSkills) ⟨[], [], []⟩

/-- `discoverSkills(options)`, with each directory's load result passed in
place of the filesystem walk: sources are scanned in the fixed precedence
order `extra` directories (in the given order), then `bundled` (when
configured), then `managed`, then `workspace`. -/
def discoverSkills (rp : String → Option String) (ignoreSkills includeSkills : List String)
    (extra : List SourceLoad) (bundled : Option SourceLoad)
    (managed workspace : SourceLoad) : MergeState :=
  discoverMerge rp ignoreSkills includeSkills
    (extra ++ bundled.toList ++ [managed, workspace])

/-- All candidate entries of a source list, in scan order. -/
def sourceEntries (sources : List SourceLoad) : List Skill :=
  (sources.map Prod.fst).flatten

/-- Does a skill pass the ignore/include filters of `discoverSkills`? -/
def passesFilters (ignoreSkills includeSkills : List String) (skill : Skill) : Bool :=
  !(ignoreSkills.length > 0 && matchesPattern skill.name ignoreSkills) &&
  !(includeSkills.length > 0 && !matchesPattern skill.name includeSkills)

-- ===========================================================================
-- skills.ts — slash-command spec derivation
-- ===========================================================================

/-- `SKILL_COMMAND_MAX_LENGTH`. -/
def SKILL_COMMAND_MAX_LENGTH : Nat := 32

/-- `SKILL_COMMAND_FALLBACK`. -/
def SKILL_COMMAND_FALLBACK : String := "skill"

/-- `SKILL_COMMAND_DESCRIPTION_MAX_LENGTH`. -/
def SKILL_COMMAND_DESCRIPTION_MAX_LENGTH : Nat := 100

/-- A character kept by the sanitizer (`[a-z0-9_]`). -/
def isSafeCmdChar (c : Char) : Bool :=
  ('a' ≤ c && c ≤ 'z') || ('0' ≤ c && c ≤ '9') || c = '_'

/-- Helper for `.replace(/[^a-z0-9_]+/g, "_")`: the flag records whether the
previous character was part of an unsafe run (already replaced by `_`). -/
def collapseUnsafeAux : Bool → List Char → List Char
  | _, [] => []
  | inRun, c :: cs =>
    if isSafeCmdChar c then c :: collapseUnsafeAux false cs
    else if inRun then collapseUnsafeAux true cs
    else '_' :: collapseUnsafeAux true cs

/-- `.replace(/[^a-z0-9_]+/g, "_")`: each maximal run of unsafe characters
becomes a single underscore. -/
def collapseUnsafeRuns (cs : List Char) : List Char := collapseUnsafeAux false cs

/-- Helper for `.replace(/_+/g, "_")`. -/
def collapseUnderscoreAux : Bool → List Char → List Char
  | _, [] => []
  | inRun, c :: cs =>
    if c = '_' then
      if inRun then collapseUnderscoreAux true cs
      else '_' :: collapseUnderscoreAux true cs
    else c :: collapseUnderscoreAux false cs

/-- `.replace(/_+/g, "_")`: each underscore run becomes a single underscore. -/
def collapseUnderscoreRuns (cs : List Char) : List Char := collapseUnderscoreAux false cs

/-- `.replace(/^_+|_+$/g, "")`: strip leading and trailing underscores. -/
def trimUnderscores (cs : List Char) : List Char :=
  ((cs.dropWhile fun c => c = '_').reverse.dropWhile fun c => c = '_').reverse

/-- `sanitizeSkillCommandName(raw)`.  All characters surviving the collapse
are ASCII, so `.slice(0, 32)` is an ordinary 32-character prefix. -/
def sanitizeSkillCommandName (raw : String) : String :=
  let normalized := trimUnderscores (collapseUnderscoreRuns (collapseUnsafeRuns (toLowerAscii raw).data))
  let trimmed := normalized.take SKILL_COMMAND_MAX_LENGTH
  if trimmed.isEmpty then SKILL_COMMAND_FALLBACK else ⟨trimmed⟩

/-- The candidate `${base.slice(0, Math.max(1, 32 - suffix.length))}_${index}`. -/
def mkCandidate (base : String) (index : Nat) : String :=
  let suffix := "_" ++ toString index
  let maxBaseLength := max 1 (SKILL_COMMAND_MAX_LENGTH - suffix.length)
  ⟨base.data.take maxBaseLength⟩ ++ suffix

/-- The fallback name `${base.slice(0, Math.max(1, 30))}_x`. -/
def fallbackCandidate (base : String) : String :=
  ⟨base.data.take (max 1 (SKILL_COMMAND_MAX_LENGTH - 2))⟩ ++ "_x"

/-- The suffix-search loop of `resolveUniqueSkillCommandName`, starting at
`index` with `fuel` iterations left (the source iterates `index = 2 .. 999`). -/
def uniqueLoop (base : String) (used : List String) : Nat → Nat → String
  | _, 0 => fallbackCandidate base
  | index, fuel + 1 =>
    let candidate := mkCandidate base index
    if toLowerAscii candidate ∈ used then uniqueLoop base used (index + 1) fuel
    else candidate

/-- `resolveUniqueSkillCommandName(base, used)`. -/
def resolveUniqueSkillCommandName (base : String) (used : List String) : String :=
  if toLowerAscii base ∈ used then uniqueLoop base used 2 998 else base

/-- One produced command spec. -/
structure SkillCommandSpec where
  name : String
  skillName : String
  description : String
  dispatch : Option SkillCommandDispatch
deriving Repr, DecidableEq, Inhabited

/-- `skill.description?.trim() || skill.name`. -/
def rawSpecDescription (skill : Skill) : String :=
  if jsTrim skill.description = "" then skill.name else jsTrim skill.description

/-- The description shown for a skill's command, truncated to 99 UTF-16 units
plus an ellipsis when longer than 100. -/
def specDescription (skill : Skill) : String :=
  if utf16Len (rawSpecDescription skill) > SKILL_COMMAND_DESCRIPTION_MAX_LENGTH then
    utf16Take (rawSpecDescription skill) (SKILL_COMMAND_DESCRIPTION_MAX_LENGTH - 1) ++ "…"
  else rawSpecDescription skill

/-- The loop body of `buildSkillCommandSpecs`: derive the sanitized base,
resolve it to a unique name, record the name as used. -/
def buildSpecStep (acc : List SkillCommandSpec × List String) (skill : Skill) :
    List SkillCommandSpec × List String :=
  let base := sanitizeSkillCommandName skill.name
  let unique := resolveUniqueSkillCommandName base acc.2
  (acc.1 ++
    [{ name := unique
       skillName := skill.name
       description := specDescription skill
       dispatch := skill.commandDispatch }],
   acc.2 ++ [toLowerAscii unique])

/-- `buildSkillCommandSpecs(skills, reservedNames)`. -/
def buildSkillCommandSpecs (skills : List Skill) (reservedNames : List String := []) :
    List SkillCommandSpec :=
  ((skills.filter fun s => s.commandDispatch.isSome).foldl buildSpecStep
    ([], reservedNames.map toLowerAscii)).1

-- ===========================================================================
-- skills-repository.ts — enable / disable state machine
-- ===========================================================================

/-- A persisted `SkillStateRecord` row. -/
structure SkillStateRecord where
  id : String
  enabled : Bool
  installed : Bool
  enabledAt : Option String := none
  lastUsedAt : Option String := none
  useCount : Nat := 0
deriving Repr, DecidableEq, Inhabited

/-- The `skills_state` table, in insertion order. -/
abbrev StateDb := List SkillStateRecord

/-- `repo.findFirst({id: name})`. -/
def dbFindFirst (db : StateDb) (name : String) : Option SkillStateRecord :=
  db.find? fun r => r.id = name

/-- `enableSkillAsync(name)`: re-runs discovery (its skill list is passed in),
returns false without touching the table when the name is not discoverable,
and otherwise upserts `enabled = true, enabledAt = now` (creating the record
with `installed = true, useCount = 0`). -/
def enableSkillAsync (discovered : List Skill) (db : StateDb) (now name : String) :
    Bool × StateDb :=
  match discovered.find? fun s => s.name = name with
  | none => (false, db)
  | some _ =>
    match dbFindFirst db name with
    | some existing =>
      (true, db.map fun r =>
        if r.id = existing.id then { r with enabled := true, enabledAt := some now } else r)
    | none =>
      (true, db ++ [{ id := name, enabled := true, installed := true,
                      enabledAt := some now, useCount := 0 }])

/-- `disableSkillAsync(name)`: the same discoverability gate; upserts
`enabled = false` with `enabledAt` cleared. -/
def disableSkillAsync (discovered : List Skill) (db : StateDb) (name : String) :
    Bool × StateDb :=
  match discovered.find? fun s => s.name = name with
  | none => (false, db)
  | some _ =>
    match dbFindFirst db name with
    | some existing =>
      (true, db.map fun r =>
        if r.id = existing.id then { r with enabled := false, enabledAt := none } else r)
    | none =>
      (true, db ++ [{ id := name, enabled := false, installed := true, useCount := 0 }])

-- ===========================================================================
-- C3 — validateSkillName
-- ===========================================================================

/-- The violation disjunction exactly as claim C3 words it: name differs from
parent, length exceeds 64, some character outside lowercase `a-z`, `0-9`,
hyphen, leading or trailing hyphen, or two consecutive hyphens. -/
def claimNameViolation (name parent : String) : Prop :=
  name ≠ parent ∨ utf16Len name > 64 ∨ (∃ c ∈ name.data, isNameChar c = false) ∨
  name.data.head? = some '-' ∨ name.data.getLast? = some '-' ∨
  listContainsSub ['-', '-'] name.data = true

instance (name parent : String) : Decidable (claimNameViolation name parent) := by
  unfold claimNameViolation; infer_instance

/-- Propositional shuffle used to align the code's rule list with the claim's
disjunction. -/
theorem orShuffle (A B Z E Hh Hl D : Prop) :
    (A ∨ B ∨ (Z ∨ E) ∨ (Hh ∨ Hl) ∨ D) ↔ ((A ∨ B ∨ E ∨ Hh ∨ Hl ∨ D) ∨ Z) := by
  tauto

/-- The `NAME_PATTERN` test fails exactly for the empty name or a name with a
character outside `[a-z0-9-]`. -/
theorem namePatternTest_eq_false_iff (s : String) :
    namePatternTest s = false ↔ (s = "" ∨ ∃ c ∈ s.data, isNameChar c = false) := by
  have hempty : (s = "") ↔ s.data = [] := by rw [String.ext_iff]
  rw [hempty]
  simp [namePatternTest, List.isEmpty_iff, List.all_eq_true]
  tauto

/-- C3 (counterexample): for the empty name and empty parent directory the
code returns a non-empty message list (the `NAME_PATTERN` regex `+` rejects
the empty string), although none of the five conditions the claim lists
holds. -/
theorem C3_counterexample :
    validateSkillName "" "" ≠ [] ∧ ¬ claimNameViolation "" "" := by decide

set_option maxHeartbeats 1600000 in
/-- C3 (amended): `validateSkillName(name, parent)` returns a non-empty list
iff name differs from parent, length exceeds 64, the name is empty or has a
character outside lowercase `a-z`, `0-9`, hyphen, the name starts or ends
with a hyphen, or it contains two consecutive hyphens; and exactly one
message is produced per violated rule (the empty-name case firing the
character rule). -/
theorem C3_name_validation (name parent : String) :
    (validateSkillName name parent ≠ [] ↔ (claimNameViolation name parent ∨ name = "")) ∧
    (validateSkillName name parent).length =
      (if name ≠ parent then 1 else 0) + (if utf16Len name > 64 then 1 else 0) +
      (if ¬ namePatternTest name then 1 else 0) +
      (if name.data.head? = some '-' ∨ name.data.getLast? = some '-' then 1 else 0) +
      (if listContainsSub ['-', '-'] name.data then 1 else 0) := by
  constructor
  · have hpat := namePatternTest_eq_false_iff name
    have hbase : validateSkillName name parent ≠ [] ↔
        (name ≠ parent ∨ utf16Len name > 64 ∨ ¬ namePatternTest name ∨
         (name.data.head? = some '-' ∨ name.data.getLast? = some '-') ∨
         listContainsSub ['-', '-'] name.data = true) := by
      unfold validateSkillName
      split_ifs <;> simp_all [MAX_NAME_LENGTH]
    rw [hbase]
    unfold claimNameViolation
    rw [Bool.not_eq_true, hpat]
    exact orShuffle _ _ _ _ _ _ _
  · unfold validateSkillName
    split_ifs <;> simp_all [MAX_NAME_LENGTH] <;> omega

/-- Witness for the amended C3 at a concrete input: `my--skill` in directory
`other` violates exactly the mismatch and consecutive-hyphen rules. -/
theorem C3_name_validation_witness :
    validateSkillName "my--skill" "other" ≠ [] ∧
    (validateSkillName "my--skill" "other").length = 2 := by
  obtain ⟨h1, h2⟩ := C3_name_validation "my--skill" "other"
  refine ⟨h1.mpr (Or.inl (Or.inl (by decide))), ?_⟩
  rw [h2]
  decide

-- ===========================================================================
-- C5 — metadata / allowed-tools round-trips
-- ===========================================================================

/-- Modelled from claim C5's wording: a strict JSON-array decode for
`allowed-tools`, falling back to comma-splitting on any failure — including a
successfully parsed JSON value that is not an array. -/
def claimDecodeAllowedTools (raw : String) : Json :=
  match jsonParse raw with
  | some (Json.arr xs) => Json.arr xs
  | _ => Json.arr ((splitOnChar ',' raw.data).map fun seg => Json.str ⟨jsTrimList seg⟩)

/-- C5 (counterexample): for the frontmatter line `allowed-tools: 42` the code
keeps the JSON number 42 — it attempts a general JSON decode, not an
array-restricted one — while the claim's array-decode-or-split rule would
give the list `["42"]`. -/
theorem C5_counterexample :
    fmFind? (parseSkillFrontmatter "---\nallowed-tools: 42\n---\n").fields "allowed-tools" =
      some (Json.num "42") ∧
    claimDecodeAllowedTools "42" = Json.arr [Json.str "42"] ∧
    Json.num "42" ≠ Json.arr [Json.str "42"] :=
  ⟨rfl, rfl, nofun⟩

/-- C5 (amended): the three concrete round-trips hold (structured `metadata`
object, JSON-array `allowed-tools`, comma-split `allowed-tools`), and for the
`allowed-tools` field a strict JSON decode of any JSON value — not only
arrays — is attempted, the raw value being comma-split with trimmed segments
exactly when JSON parsing fails. -/
theorem C5_allowed_tools_roundtrip :
    (fmFind? (parseSkillFrontmatter
        "---\nmetadata: \x7b\"wopr\":\x7b\"emoji\":\"X\"\x7d\x7d\n---\nbody").fields "metadata" =
      some (Json.obj [("wopr", Json.obj [("emoji", Json.str "X")])])) ∧
    (fmFind? (parseSkillFrontmatter "---\nallowed-tools: [\"Bash\",\"Read\"]\n---\n").fields
        "allowed-tools" = some (Json.arr [Json.str "Bash", Json.str "Read"])) ∧
    (fmFind? (parseSkillFrontmatter "---\nallowed-tools: Bash, Read, Write\n---\n").fields
        "allowed-tools" = some (Json.arr [Json.str "Bash", Json.str "Read", Json.str "Write"])) ∧
    (∀ raw : String, jsonParse raw = none →
      decodeFmValue "allowed-tools" raw =
        Json.arr ((splitOnChar ',' raw.data).map fun seg => Json.str ⟨jsTrimList seg⟩)) ∧
    (∀ raw j, jsonParse raw = some j → decodeFmValue "allowed-tools" raw = j) := by
  refine ⟨rfl, rfl, rfl, ?_, ?_⟩
  · intro raw h
    unfold decodeFmValue
    rw [if_neg (by decide), if_pos rfl, h]
  · intro raw j h
    unfold decodeFmValue
    rw [if_neg (by decide), if_pos rfl, h]

/-- Witness for the two conditional parts of the amended C5 at concrete
values. -/
theorem C5_allowed_tools_roundtrip_witness :
    (jsonParse "Bash, Read, Write" = none ∧
      decodeFmValue "allowed-tools" "Bash, Read, Write" =
        Json.arr [Json.str "Bash", Json.str "Read", Json.str "Write"]) ∧
    (jsonParse "[1]" = some (Json.arr [Json.num "1"]) ∧
      decodeFmValue "allowed-tools" "[1]" = Json.arr [Json.num "1"]) :=
  ⟨⟨rfl, (C5_allowed_tools_roundtrip.2.2.2.1 "Bash, Read, Write" rfl).trans rfl⟩,
   ⟨rfl, C5_allowed_tools_roundtrip.2.2.2.2 "[1]" (Json.arr [Json.num "1"]) rfl⟩⟩

-- ===========================================================================
-- C8 — command-dispatch resolution
-- ===========================================================================

/-- C8: a dispatch descriptor is produced only when the normalized dispatch
kind is `"tool"`, in which case its `argMode` is `"raw"` whatever the
`command-arg-mode` value was; and a `"tool"` kind with an absent or empty
`command-tool` yields no descriptor together with the warning flag. -/
theorem C8_command_dispatch (fs : FmFields) :
    (∀ d, (resolveCommandDispatch fs).1 = some d →
      normalizedDispatchKind fs = some "tool" ∧ d.argMode = "raw") ∧
    (normalizedDispatchKind fs = some "tool" →
      ((fmGetStr fs "command-tool").map jsTrim = none ∨
       (fmGetStr fs "command-tool").map jsTrim = some "") →
      resolveCommandDispatch fs = (none, true)) := by
  constructor
  · intro d hd
    unfold resolveCommandDispatch at hd
    split at hd
    · simp at hd
    · rename_i hk
      rw [not_not] at hk
      refine ⟨hk, ?_⟩
      split at hd
      · simp at hd
      · split at hd
        · simp at hd
        · simp only [Option.some.injEq] at hd
          rw [← hd]
          split <;> rfl
  · intro hk ht
    unfold resolveCommandDispatch
    rw [if_neg (by simp [hk])]
    rcases ht with ht | ht <;> simp [ht]

/-- Witness: a frontmatter with dispatch kind `tool` but no `command-tool`
resolves to no descriptor with the warning fired. -/
theorem C8_command_dispatch_witness :
    resolveCommandDispatch [("command-dispatch", Json.str "tool")] = (none, true) :=
  (C8_command_dispatch [("command-dispatch", Json.str "tool")]).2 rfl (Or.inl rfl)

-- ===========================================================================
-- C6 — enable / disable gate and upsert shape
-- ===========================================================================

/-- `find?` by id commutes with an id-preserving map. -/
theorem dbFindFirst_map_of_id_preserving (db : StateDb)
    (f : SkillStateRecord → SkillStateRecord) (hf : ∀ r, (f r).id = r.id) (name : String) :
    dbFindFirst (db.map f) name = (dbFindFirst db name).map f := by
  induction db with
  | nil => rfl
  | cons r db ih =>
    by_cases h : r.id = name
    · rw [dbFindFirst, List.map_cons, List.find?_cons_of_pos _ (by simp [hf, h]),
        dbFindFirst, List.find?_cons_of_pos _ (by simp [h])]
      rfl
    · rw [dbFindFirst, List.map_cons, List.find?_cons_of_neg _ (by simp [hf, h]),
        dbFindFirst, List.find?_cons_of_neg _ (by simp [h])]
      exact ih

/-- `find?` by id over an append skips a prefix with no match. -/
theorem dbFindFirst_append_of_none (db recs : StateDb) (name : String)
    (h : dbFindFirst db name = none) :
    dbFindFirst (db ++ recs) name = dbFindFirst recs name := by
  unfold dbFindFirst at h ⊢
  rw [List.find?_append, h, Option.none_or]

/-- A record found by id has that id. -/
theorem dbFindFirst_id (db : StateDb) (name : String) (r : SkillStateRecord)
    (h : dbFindFirst db name = some r) : r.id = name := by
  have := List.find?_some h
  simpa using this

/-- C6: enable and disable first consult the freshly discovered skill list
(passed here as `discovered`); an undiscoverable name returns `false` with
the table untouched (no insert, no update); a discoverable name returns
`true` and upserts `enabled = true` with `enabledAt = now` (enable) or
`enabled = false` with `enabledAt` cleared (disable), creating the record
with `installed = true` and `useCount = 0` when absent. -/
theorem C6_enable_disable (discovered : List Skill) (db : StateDb) (now name : String) :
    (discovered.find? (fun s => s.name = name) = none →
      enableSkillAsync discovered db now name = (false, db) ∧
      disableSkillAsync discovered db name = (false, db)) ∧
    ((discovered.find? (fun s => s.name = name)).isSome →
      (enableSkillAsync discovered db now name).1 = true ∧
      (disableSkillAsync discovered db name).1 = true ∧
      (∃ r, dbFindFirst (enableSkillAsync discovered db now name).2 name = some r ∧
        r.enabled = true ∧ r.enabledAt = some now ∧
        (dbFindFirst db name = none → r.installed = true ∧ r.useCount = 0)) ∧
      (∃ r, dbFindFirst (disableSkillAsync discovered db name).2 name = some r ∧
        r.enabled = false ∧ r.enabledAt = none ∧
        (dbFindFirst db name = none → r.installed = true ∧ r.useCount = 0))) := by
  constructor
  · intro hnone
    constructor
    · simp [enableSkillAsync, hnone]
    · simp [disableSkillAsync, hnone]
  · intro hsome
    obtain ⟨sk, hsk⟩ := Option.isSome_iff_exists.mp hsome
    cases hdb : dbFindFirst db name with
    | some existing =>
      have hmapE : dbFindFirst (db.map fun r =>
          if r.id = existing.id then { r with enabled := true, enabledAt := some now } else r)
          name = some { existing with enabled := true, enabledAt := some now } := by
        rw [dbFindFirst_map_of_id_preserving _ _ (fun r => by split <;> rfl) name, hdb]
        simp
      have hmapD : dbFindFirst (db.map fun r =>
          if r.id = existing.id then { r with enabled := false, enabledAt := none } else r)
          name = some { existing with enabled := false, enabledAt := none } := by
        rw [dbFindFirst_map_of_id_preserving _ _ (fun r => by split <;> rfl) name, hdb]
        simp
      refine ⟨by simp [enableSkillAsync, hsk, hdb], by simp [disableSkillAsync, hsk, hdb],
        ⟨{ existing with enabled := true, enabledAt := some now }, ?_, rfl, rfl, ?_⟩,
        ⟨{ existing with enabled := false, enabledAt := none }, ?_, rfl, rfl, ?_⟩⟩
      · simp only [enableSkillAsync, hsk, hdb]
        exact hmapE
      · intro hn
        exact Option.noConfusion hn
      · simp only [disableSkillAsync, hsk, hdb]
        exact hmapD
      · intro hn
        exact Option.noConfusion hn
    | none =>
      have recE : dbFindFirst (db ++ [({ id := name, enabled := true, installed := true, enabledAt := some now, useCount := 0 } : SkillStateRecord)]) name = some ({ id := name, enabled := true, installed := true, enabledAt := some now, useCount := 0 } : SkillStateRecord) := by
        rw [dbFindFirst_append_of_none _ _ _ hdb]
        simp [dbFindFirst]
      have recD : dbFindFirst (db ++ [({ id := name, enabled := false, installed := true, useCount := 0 } : SkillStateRecord)]) name = some ({ id := name, enabled := false, installed := true, useCount := 0 } : SkillStateRecord) := by
        rw [dbFindFirst_append_of_none _ _ _ hdb]
        simp [dbFindFirst]
      refine ⟨by simp [enableSkillAsync, hsk, hdb], by simp [disableSkillAsync, hsk, hdb],
        ⟨{ id := name, enabled := true, installed := true,
           enabledAt := some now, useCount := 0 }, ?_, rfl, rfl, fun _ => ⟨rfl, rfl⟩⟩,
        ⟨{ id := name, enabled := false, installed := true,
           useCount := 0 }, ?_, rfl, rfl, fun _ => ⟨rfl, rfl⟩⟩⟩
      · simp only [enableSkillAsync, hsk, hdb]
        exact recE
      · simp only [disableSkillAsync, hsk, hdb]
        exact recD

/-- Witness: enabling an undiscoverable name mutates nothing and returns
false; enabling a discoverable one returns true. -/
theorem C6_enable_disable_witness :
    enableSkillAsync [] [] "T" "ghost" = (false, []) ∧
    (enableSkillAsync
      [{ name := "alpha", description := "d", path := "/m/alpha/SKILL.md",
         baseDir := "/m/alpha", source := "managed" }] [] "T" "alpha").1 = true :=
  ⟨((C6_enable_disable [] [] "T" "ghost").1 rfl).1,
   ((C6_enable_disable
      [{ name := "alpha", description := "d", path := "/m/alpha/SKILL.md",
         baseDir := "/m/alpha", source := "managed" }] [] "T" "alpha").2 rfl).1⟩

-- ===========================================================================
-- C4 — frontmatter block detection and line splitting
-- ===========================================================================

/-- The closing-marker search returns `none` exactly when `"\n---"` does not
occur in the input. -/
theorem splitAtCloseMarker_eq_none_iff (cs : List Char) :
    splitAtCloseMarker cs = none ↔ listContainsSub ['\n', '-', '-', '-'] cs = false := by
  induction cs with
  | nil => simp [splitAtCloseMarker, listContainsSub, List.isEmpty]
  | cons c cs ih =>
    rw [splitAtCloseMarker, listContainsSub]
    cases h : List.isPrefixOf ['\n', '-', '-', '-'] (c :: cs) with
    | true => simp [h]
    | false => simp [h, Option.map_eq_none', ih]

/-- A nonempty marker-free prefix blocks an immediate closing-marker match:
the marker cannot start inside `yaml ++ "\n---"` before the junction. -/
theorem closeMarker_not_prefix (c : Char) (ys rest : List Char)
    (h : listContainsSub ['\n', '-', '-', '-'] (c :: ys) = false) :
    List.isPrefixOf ['\n', '-', '-', '-'] ((c :: ys) ++ ['\n', '-', '-', '-'] ++ rest) =
      false := by
  rcases ys with _ | ⟨d, _ | ⟨e, _ | ⟨f, tl⟩⟩⟩
  · simp [List.isPrefixOf]
  · simp [List.isPrefixOf]
  · simp [List.isPrefixOf]
  · rw [listContainsSub] at h
    cases hp : List.isPrefixOf ['\n', '-', '-', '-'] (c :: d :: e :: f :: tl) with
    | true =>
      rw [hp] at h
      simp at h
    | false =>
      simp only [List.isPrefixOf, List.cons_append] at hp ⊢
      simpa using hp

/-- The lazy closing-marker search finds the junction when the prefix is
marker-free. -/
theorem splitAtCloseMarker_append (yaml rest : List Char)
    (h : listContainsSub ['\n', '-', '-', '-'] yaml = false) :
    splitAtCloseMarker (yaml ++ ['\n', '-', '-', '-'] ++ rest) = some (yaml, rest) := by
  induction yaml with
  | nil => simp [splitAtCloseMarker, List.isPrefixOf]
  | cons c ys ih =>
    have hys : listContainsSub ['\n', '-', '-', '-'] ys = false := by
      rw [listContainsSub] at h
      exact (Bool.or_eq_false_iff.mp h).2
    have hpref : List.isPrefixOf ['\n', '-', '-', '-']
        (c :: (ys ++ ['\n', '-', '-', '-'] ++ rest)) = false :=
      closeMarker_not_prefix c ys rest h
    show splitAtCloseMarker (c :: (ys ++ ['\n', '-', '-', '-'] ++ rest)) = some (c :: ys, rest)
    rw [splitAtCloseMarker,
      if_neg (fun hx => by rw [hpref] at hx; exact Bool.noConfusion hx), ih hys]
    rfl

/-- Does the regex of `parseSkillFrontmatter` match: the content opens with
the line `---` and the substring `"\n---"` occurs afterwards. -/
def hasFmBlock (content : String) : Bool :=
  List.isPrefixOf ['-', '-', '-', '\n'] content.data &&
  listContainsSub ['\n', '-', '-', '-'] (content.data.drop 4)

/-- `fmSplitBlock` fails exactly when `hasFmBlock` is false. -/
theorem fmSplitBlock_eq_none_iff (content : String) :
    fmSplitBlock content = none ↔ hasFmBlock content = false := by
  unfold fmSplitBlock hasFmBlock
  cases hp : List.isPrefixOf ['-', '-', '-', '\n'] content.data with
  | false => simp
  | true =>
    simp only [if_pos rfl, Bool.true_and]
    cases hs : splitAtCloseMarker (content.data.drop 4) with
    | none => simp [(splitAtCloseMarker_eq_none_iff _).mp hs]
    | some pr =>
      have : ¬ splitAtCloseMarker (content.data.drop 4) = none := by simp [hs]
      rw [(splitAtCloseMarker_eq_none_iff _).not] at this
      rcases pr with ⟨a, b⟩
      simp only [hs]
      simp only [Bool.not_eq_false] at this
      simp [this]

/-- Modelled from claim C4's wording: a well-formed metadata block is
delimited by a first line consisting solely of the marker `---` and a later
line consisting solely of the marker. -/
def claimHasDelimitedBlock (content : String) : Bool :=
  match splitOnChar '\n' content.data with
  | first :: rest => first == ['-', '-', '-'] && rest.any (fun l => l == ['-', '-', '-'])
  | [] => false

/-- C4 (counterexample): in `"---\na: b\n---X"` no line after the first
consists solely of the delimiter, so per the claim no well-formed block
exists and the whole input should come back as the body with empty fields;
the code instead accepts the line `---X` as the closing delimiter, parses
`a: b`, and returns body `"X"`. -/
theorem C4_counterexample :
    claimHasDelimitedBlock "---\na: b\n---X" = false ∧
    (parseSkillFrontmatter "---\na: b\n---X").fields ≠ [] ∧
    (parseSkillFrontmatter "---\na: b\n---X").body ≠ "---\na: b\n---X" := by
  refine ⟨by decide, ?_, ?_⟩
  · have hf : (parseSkillFrontmatter "---\na: b\n---X").fields = [("a", Json.str "b")] := rfl
    rw [hf]
    exact List.cons_ne_nil _ _
  · have hb : (parseSkillFrontmatter "---\na: b\n---X").body = "X" := rfl
    rw [hb]
    decide

/-- First-colon splitting: a line with no colon splits as `none`. -/
theorem firstColonSplit_eq_none (l : List Char) (h : ':' ∉ l) :
    firstColonSplit l = none := by
  induction l with
  | nil => rfl
  | cons c t ih =>
    have hc : ¬ c = ':' := fun hc => h (by rw [hc]; exact List.mem_cons_self ':' t)
    rw [firstColonSplit, if_neg hc, ih (fun ht => h (List.mem_cons_of_mem _ ht))]
    rfl

/-- First-colon splitting: the split happens at the first colon. -/
theorem firstColonSplit_append (a b : List Char) (h : ':' ∉ a) :
    firstColonSplit (a ++ ':' :: b) = some (a, b) := by
  induction a with
  | nil => simp [firstColonSplit]
  | cons c t ih =>
    have hc : ¬ c = ':' := fun hc => h (by rw [hc]; exact List.mem_cons_self ':' t)
    rw [List.cons_append, firstColonSplit, if_neg hc,
      ih (fun ht => h (List.mem_cons_of_mem _ ht))]
    rfl

/-- C4 (amended): `parseSkillFrontmatter` matches a block opened by the first
line `---` and closed by the first later line that merely begins with `---`
(text after that marker starts the body, one immediately following newline
being consumed); when the opening line or such a closing marker is absent,
the whole input is returned as the body with empty fields and no warnings;
within a block each line is split at its first colon with key and value
trimmed, and colon-free lines are skipped. -/
theorem C4_frontmatter_parse :
    (∀ content : String, hasFmBlock content = false →
      parseSkillFrontmatter content = ⟨[], content, []⟩) ∧
    (∀ yaml body : String, listContainsSub ['\n', '-', '-', '-'] yaml.data = false →
      parseSkillFrontmatter ("---\n" ++ yaml ++ "\n---\n" ++ body) =
        ⟨parseYamlFields yaml, body,
          (validateFrontmatterFields ((parseYamlFields yaml).map (·.1))).map
            fun m => ({ skillPath := "", message := m } : SkillValidationWarning)⟩) ∧
    (∀ fs (a b : List Char), ':' ∉ a →
      parseYamlLine fs (a ++ ':' :: b) =
        fmSet fs ⟨jsTrimList a⟩ (decodeFmValue ⟨jsTrimList a⟩ ⟨jsTrimList b⟩)) ∧
    (∀ fs (l : List Char), ':' ∉ l → parseYamlLine fs l = fs) := by
  refine ⟨?_, ?_, ?_, ?_⟩
  · intro content h
    rw [parseSkillFrontmatter, (fmSplitBlock_eq_none_iff content).mpr h]
  · intro yaml body h
    have hdata : ("---\n" ++ yaml ++ "\n---\n" ++ body).data =
        ['-', '-', '-', '\n'] ++
          (yaml.data ++ ['\n', '-', '-', '-'] ++ ('\n' :: body.data)) := by
      simp [String.data_append]
    have hsplit : fmSplitBlock ("---\n" ++ yaml ++ "\n---\n" ++ body) =
        some (yaml, body) := by
      unfold fmSplitBlock
      rw [hdata]
      rw [if_pos (by simp [List.isPrefixOf])]
      have hdrop : (['-', '-', '-', '\n'] ++
          (yaml.data ++ ['\n', '-', '-', '-'] ++ ('\n' :: body.data))).drop 4 =
          yaml.data ++ ['\n', '-', '-', '-'] ++ ('\n' :: body.data) := rfl
      rw [hdrop, splitAtCloseMarker_append yaml.data ('\n' :: body.data) h]
      rfl
    rw [parseSkillFrontmatter, hsplit]
  · intro fs a b h
    rw [parseYamlLine, firstColonSplit_append a b h]
  · intro fs l h
    rw [parseYamlLine, firstColonSplit_eq_none l h]

/-- Witness for the amended C4 at concrete inputs: a plain document with no
block, a well-formed block, a key-value line, and a colon-free line. -/
theorem C4_frontmatter_parse_witness :
    parseSkillFrontmatter "# Just a markdown file" =
      ⟨[], "# Just a markdown file", []⟩ ∧
    parseSkillFrontmatter ("---\n" ++ "name: my-skill" ++ "\n---\n" ++ "body") =
      ⟨[("name", Json.str "my-skill")], "body", []⟩ ∧
    parseYamlLine [] ("name".data ++ ':' :: " my-skill".data) =
      [("name", Json.str "my-skill")] ∧
    parseYamlLine [] "no colon here".data = [] := by
  refine ⟨C4_frontmatter_parse.1 "# Just a markdown file" (by decide), ?_, ?_, ?_⟩
  · rw [C4_frontmatter_parse.2.1 "name: my-skill" "body" (by decide)]
    rfl
  · rw [C4_frontmatter_parse.2.2.1 [] "name".data " my-skill".data (by decide)]
    rfl
  · rw [C4_frontmatter_parse.2.2.2 [] "no colon here".data (by decide)]

-- ===========================================================================
-- C9 — description is mandatory for inclusion
-- ===========================================================================

/-- The warnings of `loadSkillFromFile` are always the frontmatter warnings
(re-attributed to the file), the name-rule messages, and the description
messages, in that order — whether or not the entry is dropped. -/
theorem loadSkillFromFile_warnings (filePath content source : String) :
    (loadSkillFromFile filePath content source).2 =
      (parseSkillFrontmatter content).warnings.map
        (fun w => { w with skillPath := filePath }) ++
      (validateSkillName
        (derivedSkillName (parseSkillFrontmatter content).fields
          (posixBasename (posixDirname filePath)))
        (posixBasename (posixDirname filePath))).map
        (fun m => ({ skillPath := filePath, message := m } : SkillValidationWarning)) ++
      (validateSkillDescription
        (fmGetStr (parseSkillFrontmatter content).fields "description")).map
        (fun m => ({ skillPath := filePath, message := m } : SkillValidationWarning)) := by
  simp only [loadSkillFromFile]
  split
  · rename_i heq
    rw [heq]
  · rename_i d heq
    rw [heq]
    split <;> rfl

/-- The entry is dropped exactly when the description field is absent, empty
or all-whitespace. -/
theorem loadSkillFromFile_entry_none_iff (filePath content source : String) :
    (loadSkillFromFile filePath content source).1 = none ↔
      (fmGetStr (parseSkillFrontmatter content).fields "description" = none ∨
       ∃ d, fmGetStr (parseSkillFrontmatter content).fields "description" = some d ∧
         (d = "" ∨ jsTrim d = "")) := by
  simp only [loadSkillFromFile]
  split
  · rename_i heq
    rw [heq]
    simp
  · rename_i d heq
    rw [heq]
    by_cases h : d = "" ∨ jsTrim d = ""
    · rw [if_pos h]
      exact iff_of_true rfl (Or.inr ⟨d, rfl, h⟩)
    · rw [if_neg h]
      constructor
      · intro hc
        exact Option.noConfusion hc
      · rintro (hc | ⟨d2, hd2, he⟩)
        · exact Option.noConfusion hc
        · cases hd2
          exact absurd he h

/-- C9: a candidate whose metadata parses is excluded iff its description is
missing, empty or all-whitespace; every name-rule or description-rule message
(including the over-1024 one) is recorded as a warning for the file, and any
skill with a non-empty description is included regardless of those
warnings. -/
theorem C9_description_mandatory (filePath content source : String) :
    ((loadSkillFromFile filePath content source).1 = none ↔
      (fmGetStr (parseSkillFrontmatter content).fields "description" = none ∨
       ∃ d, fmGetStr (parseSkillFrontmatter content).fields "description" = some d ∧
         (d = "" ∨ jsTrim d = ""))) ∧
    (∀ m ∈ validateSkillName
        (derivedSkillName (parseSkillFrontmatter content).fields
          (posixBasename (posixDirname filePath)))
        (posixBasename (posixDirname filePath)),
      ({ skillPath := filePath, message := m } : SkillValidationWarning) ∈
        (loadSkillFromFile filePath content source).2) ∧
    (∀ m ∈ validateSkillDescription
        (fmGetStr (parseSkillFrontmatter content).fields "description"),
      ({ skillPath := filePath, message := m } : SkillValidationWarning) ∈
        (loadSkillFromFile filePath content source).2) := by
  refine ⟨loadSkillFromFile_entry_none_iff filePath content source, ?_, ?_⟩
  · intro m hm
    rw [loadSkillFromFile_warnings]
    exact List.mem_append_left _ (List.mem_append_right _ (List.mem_map_of_mem _ hm))
  · intro m hm
    rw [loadSkillFromFile_warnings]
    exact List.mem_append_right _ (List.mem_map_of_mem _ hm)

/-- Witness: a name-mismatch warning and a missing-description warning are
recorded; the name-mismatched skill is still included. -/
theorem C9_description_mandatory_witness :
    (({ skillPath := "/skills/dir/SKILL.md",
        message := "name \"x\" does not match parent directory \"dir\"" } :
        SkillValidationWarning) ∈
      (loadSkillFromFile "/skills/dir/SKILL.md"
        "---\nname: x\ndescription: d\n---\n" "managed").2) ∧
    (({ skillPath := "/skills/dir/SKILL.md", message := "description is required" } :
        SkillValidationWarning) ∈
      (loadSkillFromFile "/skills/dir/SKILL.md" "---\nname: dir\n---\n" "managed").2) ∧
    (loadSkillFromFile "/skills/dir/SKILL.md" "---\nname: x\ndescription: d\n---\n"
      "managed").1 ≠ none := by
  refine ⟨?_, ?_, ?_⟩
  · exact (C9_description_mandatory "/skills/dir/SKILL.md"
      "---\nname: x\ndescription: d\n---\n" "managed").2.1 _ (by decide)
  · exact (C9_description_mandatory "/skills/dir/SKILL.md"
      "---\nname: dir\n---\n" "managed").2.2 _ (by decide)
  · intro h
    rcases ((C9_description_mandatory "/skills/dir/SKILL.md"
      "---\nname: x\ndescription: d\n---\n" "managed").1.mp h) with hc | ⟨d, hd, he⟩
    · exact Option.noConfusion ((show fmGetStr (parseSkillFrontmatter
        "---\nname: x\ndescription: d\n---\n").fields "description" = some "d" from rfl) ▸ hc)
    · rw [show fmGetStr (parseSkillFrontmatter
        "---\nname: x\ndescription: d\n---\n").fields "description" = some "d" from rfl] at hd
      cases hd
      rcases he with he | he
      · exact absurd he (by decide)
      · exact absurd he (by decide)

-- ===========================================================================
-- C1 / C2 / C10 — the discovery merge loop
-- ===========================================================================

/-- Invariant of the merge loop: the real-path set is exactly the identity
keys of the accepted skills in order, with no duplicate keys and no duplicate
names. -/
def mergeInv (rp : String → Option String) (st : MergeState) : Prop :=
  st.realPaths = st.skills.map (fun s => identityKey rp s.path) ∧
  st.realPaths.Nodup ∧
  st.skills.Pairwise (fun a b => a.name ≠ b.name)

/-- One merge step preserves the invariant. -/
theorem mergeStep_inv (rp : String → Option String) (ig inc : List String)
    (st : MergeState) (e : Skill) (h : mergeInv rp st) :
    mergeInv rp (mergeStep rp ig inc st e) := by
  obtain ⟨h1, h2, h3⟩ := h
  simp only [mergeStep]
  by_cases hA : (decide (ig.length > 0) && matchesPattern e.name ig) = true
  · rw [if_pos hA]
    exact ⟨h1, h2, h3⟩
  rw [if_neg hA]
  by_cases hB : (decide (inc.length > 0) && !matchesPattern e.name inc) = true
  · rw [if_pos hB]
    exact ⟨h1, h2, h3⟩
  rw [if_neg hB]
  by_cases hdup : identityKey rp e.path ∈ st.realPaths
  · rw [if_pos hdup]
    exact ⟨h1, h2, h3⟩
  rw [if_neg hdup]
  cases hfound : st.skills.find? (fun x => x.name = e.name) with
  | some existing => exact ⟨h1, h2, h3⟩
  | none =>
    refine ⟨?_, ?_, ?_⟩
    · simp only [List.map_append, List.map_cons, List.map_nil]
      rw [← h1]
    · rw [List.nodup_append]
      exact ⟨h2, List.nodup_singleton _, by simpa using hdup⟩
    · rw [List.pairwise_append]
      refine ⟨h3, List.pairwise_singleton _ _, ?_⟩
      intro a ha b hb
      rw [List.mem_singleton] at hb
      subst hb
      have := List.find?_eq_none.mp hfound a ha
      simpa using this

/-- A merge step either leaves the accepted list unchanged or appends the
current entry. -/
theorem mergeStep_skills_shape (rp : String → Option String) (ig inc : List String)
    (st : MergeState) (e : Skill) :
    (mergeStep rp ig inc st e).skills = st.skills ∨
    (mergeStep rp ig inc st e).skills = st.skills ++ [e] := by
  simp only [mergeStep]
  by_cases hA : (decide (ig.length > 0) && matchesPattern e.name ig) = true
  · rw [if_pos hA]; exact Or.inl rfl
  rw [if_neg hA]
  by_cases hB : (decide (inc.length > 0) && !matchesPattern e.name inc) = true
  · rw [if_pos hB]; exact Or.inl rfl
  rw [if_neg hB]
  by_cases hdup : identityKey rp e.path ∈ st.realPaths
  · rw [if_pos hdup]; exact Or.inl rfl
  rw [if_neg hdup]
  cases hfound : st.skills.find? (fun x => x.name = e.name) with
  | some existing => exact Or.inl rfl
  | none => exact Or.inr rfl

/-- Folding the merge step appends an order-preserving selection of the
processed entries. -/
theorem foldl_mergeStep_skills (rp : String → Option String) (ig inc : List String) :
    ∀ (entries : List Skill) (st : MergeState),
      ∃ t, (entries.foldl (mergeStep rp ig inc) st).skills = st.skills ++ t ∧
        t.Sublist entries := by
  intro entries
  induction entries with
  | nil => exact fun st => ⟨[], by simp, List.Sublist.refl []⟩
  | cons e es ih =>
    intro st
    obtain ⟨t, ht, hsub⟩ := ih (mergeStep rp ig inc st e)
    rw [List.foldl_cons]
    cases mergeStep_skills_shape rp ig inc st e with
    | inl hsame =>
      exact ⟨t, by rw [ht, hsame], hsub.cons e⟩
    | inr happ =>
      refine ⟨e :: t, ?_, hsub.cons₂ e⟩
      rw [ht, happ, List.append_assoc]
      rfl

/-- Folding the merge step preserves the invariant. -/
theorem foldl_mergeStep_inv (rp : String → Option String) (ig inc : List String) :
    ∀ (entries : List Skill) (st : MergeState), mergeInv rp st →
      mergeInv rp (entries.foldl (mergeStep rp ig inc) st) := by
  intro entries
  induction entries with
  | nil => exact fun st h => h
  | cons e es ih =>
    intro st h
    exact ih _ (mergeStep_inv rp ig inc st e h)

/-- The source fold preserves the invariant and accepts an order-preserving
selection of the concatenated entries. -/
theorem discoverMerge_fold (rp : String → Option String) (ig inc : List String) :
    ∀ (sources : List SourceLoad) (st : MergeState),
      (mergeInv rp st → mergeInv rp (sources.foldl (runSource rp ig inc) st)) ∧
      (∃ t, (sources.foldl (runSource rp ig inc) st).skills = st.skills ++ t ∧
        t.Sublist (sourceEntries sources)) := by
  intro sources
  induction sources with
  | nil => exact fun st => ⟨fun h => h, ⟨[], by simp, by simp [sourceEntries]⟩⟩
  | cons src rest ih =>
    intro st
    rw [List.foldl_cons]
    simp only [runSource]
    constructor
    · intro h
      exact (ih _).1 (foldl_mergeStep_inv rp ig inc src.1 _ h)
    · obtain ⟨t1, ht1, hsub1⟩ :=
        foldl_mergeStep_skills rp ig inc src.1 { st with warnings := st.warnings ++ src.2 }
      obtain ⟨t2, ht2, hsub2⟩ := (ih (src.1.foldl (mergeStep rp ig inc)
        { st with warnings := st.warnings ++ src.2 })).2
      refine ⟨t1 ++ t2, ?_, ?_⟩
      · rw [ht2, ht1, List.append_assoc]
      · have : sourceEntries (src :: rest) = src.1 ++ sourceEntries rest := by
          simp [sourceEntries]
        rw [this]
        exact hsub1.append hsub2

/-- The empty pattern list matches nothing. -/
theorem matchesPattern_nil (name : String) : matchesPattern name [] = false := rfl

/-- Unpacking `passesFilters`. -/
theorem passesFilters_eq_true (ig inc : List String) (skill : Skill)
    (h : passesFilters ig inc skill = true) :
    (decide (ig.length > 0) && matchesPattern skill.name ig) = false ∧
    (decide (inc.length > 0) && !matchesPattern skill.name inc) = false := by
  simp only [passesFilters, Bool.and_eq_true, Bool.not_eq_true'] at h
  exact h

/-- C1: in every discovery pass the merged skills have pairwise-distinct
names and follow first-seen order across the precedence-ordered sources
(extra, bundled, managed, workspace); a filtered-in entry whose real path is
new but whose name is already taken is dropped, appending exactly one warning
`name collision: "<name>" already loaded from <existing path>, skipping`;
a filtered-in entry with a new real path and a new name is accepted. -/
theorem C1_name_collision (rp : String → Option String) (ig inc : List String)
    (extra : List SourceLoad) (bundled : Option SourceLoad) (managed workspace : SourceLoad) :
    (discoverSkills rp ig inc extra bundled managed workspace).skills.Pairwise
      (fun a b => a.name ≠ b.name) ∧
    (discoverSkills rp ig inc extra bundled managed workspace).skills.Sublist
      (sourceEntries (extra ++ bundled.toList ++ [managed, workspace])) ∧
    (∀ (st : MergeState) (skill existing : Skill), passesFilters ig inc skill = true →
      identityKey rp skill.path ∉ st.realPaths →
      st.skills.find? (fun x => x.name = skill.name) = some existing →
      mergeStep rp ig inc st skill =
        { st with warnings := st.warnings ++
          [{ skillPath := skill.path,
             message := "name collision: \"" ++ skill.name ++ "\" already loaded from " ++
               existing.path ++ ", skipping" }] }) ∧
    (∀ (st : MergeState) (skill : Skill), passesFilters ig inc skill = true →
      identityKey rp skill.path ∉ st.realPaths →
      st.skills.find? (fun x => x.name = skill.name) = none →
      mergeStep rp ig inc st skill =
        { st with skills := st.skills ++ [skill],
                  realPaths := st.realPaths ++ [identityKey rp skill.path] }) := by
  have hfold := discoverMerge_fold rp ig inc
    (extra ++ bundled.toList ++ [managed, workspace]) ⟨[], [], []⟩
  have hinv : mergeInv rp (discoverSkills rp ig inc extra bundled managed workspace) :=
    hfold.1 ⟨rfl, List.nodup_nil, List.Pairwise.nil⟩
  refine ⟨hinv.2.2, ?_, ?_, ?_⟩
  · obtain ⟨t, ht, hsub⟩ := hfold.2
    have ht' : (discoverSkills rp ig inc extra bundled managed workspace).skills = t := ht
    rw [ht']
    exact hsub
  · intro st skill existing hpf hdup hfound
    obtain ⟨hA, hB⟩ := passesFilters_eq_true ig inc skill hpf
    simp only [mergeStep]
    rw [if_neg (by simp [hA]), if_neg (by simp [hB]), if_neg hdup, hfound]
    rfl
  · intro st skill hpf hdup hfound
    obtain ⟨hA, hB⟩ := passesFilters_eq_true ig inc skill hpf
    simp only [mergeStep]
    rw [if_neg (by simp [hA]), if_neg (by simp [hB]), if_neg hdup, hfound]

/-- C2: the merged skills have pairwise-distinct real-path identity keys;
an entry whose identity key was already accepted is silently dropped (state
unchanged, so no warning); when real-path resolution fails the nominal path
is the identity key. -/
theorem C2_realpath_dedup (rp : String → Option String) (ig inc : List String)
    (extra : List SourceLoad) (bundled : Option SourceLoad) (managed workspace : SourceLoad) :
    (discoverSkills rp ig inc extra bundled managed workspace).skills.Pairwise
      (fun a b => identityKey rp a.path ≠ identityKey rp b.path) ∧
    (∀ (st : MergeState) (skill : Skill), passesFilters ig inc skill = true →
      identityKey rp skill.path ∈ st.realPaths →
      mergeStep rp ig inc st skill = st) ∧
    (∀ path : String, rp path = none → identityKey rp path = path) := by
  have hfold := discoverMerge_fold rp ig inc
    (extra ++ bundled.toList ++ [managed, workspace]) ⟨[], [], []⟩
  have hinv : mergeInv rp (discoverSkills rp ig inc extra bundled managed workspace) :=
    hfold.1 ⟨rfl, List.nodup_nil, List.Pairwise.nil⟩
  refine ⟨?_, ?_, ?_⟩
  · have hnd := hinv.2.1
    rw [hinv.1] at hnd
    exact List.pairwise_map.mp hnd
  · intro st skill hpf hdup
    obtain ⟨hA, hB⟩ := passesFilters_eq_true ig inc skill hpf
    simp only [mergeStep]
    rw [if_neg (by simp [hA]), if_neg (by simp [hB]), if_pos hdup]
  · intro path h
    rw [identityKey, h]
    rfl

/-- C10: the ignore/include filters run before de-duplication and collision
resolution — a filtered-out entry leaves the whole state unchanged,
registering neither its real path nor its name; consequently after an ignored
entry, a later entry that passes the filters is accepted with no collision
warning even if it shares the ignored entry's name or real path. -/
theorem C10_filters_before_dedup (rp : String → Option String) (ig inc : List String) :
    (∀ (st : MergeState) (skill : Skill),
      ((ig.length > 0 ∧ matchesPattern skill.name ig = true) ∨
       (inc.length > 0 ∧ matchesPattern skill.name inc = false)) →
      mergeStep rp ig inc st skill = st) ∧
    (∀ e1 e2 : Skill, matchesPattern e1.name ig = true →
      passesFilters ig inc e2 = true →
      discoverMerge rp ig inc [([e1, e2], [])] =
        ⟨[e2], [identityKey rp e2.path], []⟩) := by
  constructor
  · intro st skill h
    simp only [mergeStep]
    rcases h with ⟨hlen, hm⟩ | ⟨hlen, hm⟩
    · rw [if_pos (by simp [hm, hlen])]
    · by_cases hA : (decide (ig.length > 0) && matchesPattern skill.name ig) = true
      · rw [if_pos hA]
      · rw [if_neg hA, if_pos (by simp [hm, hlen])]
  · intro e1 e2 h1 h2
    have hig1 : ig ≠ [] := by
      intro hnil
      rw [hnil, matchesPattern_nil] at h1
      exact Bool.noConfusion h1
    have hlen : ig.length > 0 := List.length_pos.mpr hig1
    obtain ⟨hA, hB⟩ := passesFilters_eq_true ig inc e2 h2
    have hm2 : matchesPattern e2.name ig = false := by
      cases hm : matchesPattern e2.name ig
      · rfl
      · rw [hm] at hA
        simp [hlen] at hA
    simp [discoverMerge, runSource, mergeStep, h1, hlen, hm2, hB]

/-- Witness: a workspace skill named like an already-accepted managed skill
(different real paths) is dropped with exactly the collision warning; a
fresh name is accepted. -/
theorem C1_name_collision_witness :
    mergeStep (fun p => some p) [] []
      ⟨[{ name := "alpha", description := "d", path := "/m/alpha/SKILL.md",
          baseDir := "/m/alpha", source := "managed" }], ["/m/alpha/SKILL.md"], []⟩
      { name := "alpha", description := "d2", path := "/w/alpha/SKILL.md",
        baseDir := "/w/alpha", source := "workspace" } =
      ⟨[{ name := "alpha", description := "d", path := "/m/alpha/SKILL.md",
          baseDir := "/m/alpha", source := "managed" }], ["/m/alpha/SKILL.md"],
        [{ skillPath := "/w/alpha/SKILL.md",
           message := "name collision: \"alpha\" already loaded from /m/alpha/SKILL.md, skipping" }]⟩ ∧
    mergeStep (fun p => some p) [] [] ⟨[], [], []⟩
      { name := "beta", description := "d", path := "/m/beta/SKILL.md",
        baseDir := "/m/beta", source := "managed" } =
      ⟨[{ name := "beta", description := "d", path := "/m/beta/SKILL.md",
          baseDir := "/m/beta", source := "managed" }], ["/m/beta/SKILL.md"], []⟩ :=
  by
  refine ⟨(C1_name_collision (fun p => some p) [] [] [] none ([], []) ([], [])).2.2.1
      _ _ { name := "alpha", description := "d", path := "/m/alpha/SKILL.md",
            baseDir := "/m/alpha", source := "managed" } ?_ ?_ ?_,
    (C1_name_collision (fun p => some p) [] [] [] none ([], []) ([], [])).2.2.2
      _ _ ?_ ?_ ?_⟩
  · rfl
  · decide
  · rfl
  · rfl
  · decide
  · rfl

/-- Witness: a second path resolving to the already-accepted real path is
silently dropped, and a failed resolution falls back to the nominal path. -/
theorem C2_realpath_dedup_witness :
    mergeStep (fun _ => some "/real/alpha/SKILL.md") [] []
      ⟨[{ name := "alpha", description := "d", path := "/m/alpha/SKILL.md",
          baseDir := "/m/alpha", source := "managed" }], ["/real/alpha/SKILL.md"], []⟩
      { name := "alpha-link", description := "d", path := "/w/alpha/SKILL.md",
        baseDir := "/w/alpha", source := "workspace" } =
      ⟨[{ name := "alpha", description := "d", path := "/m/alpha/SKILL.md",
          baseDir := "/m/alpha", source := "managed" }], ["/real/alpha/SKILL.md"], []⟩ ∧
    identityKey (fun _ => none) "/broken/link/SKILL.md" = "/broken/link/SKILL.md" :=
  by
  refine ⟨(C2_realpath_dedup (fun _ => some "/real/alpha/SKILL.md") [] [] [] none
      ([], []) ([], [])).2.1 _ _ ?_ ?_,
    (C2_realpath_dedup (fun _ => none) [] [] [] none ([], []) ([], [])).2.2
      "/broken/link/SKILL.md" rfl⟩
  · rfl
  · decide

/-- Witness: after an ignored entry, a later entry with the same real path
passes the filters and is accepted with no warning. -/
theorem C10_filters_before_dedup_witness :
    discoverMerge (fun _ => some "/real/SKILL.md") ["alpha"] []
      [([{ name := "alpha", description := "d", path := "/m/alpha/SKILL.md",
           baseDir := "/m/alpha", source := "managed" },
         { name := "beta", description := "d", path := "/w/beta/SKILL.md",
           baseDir := "/w/beta", source := "workspace" }], [])] =
      ⟨[{ name := "beta", description := "d", path := "/w/beta/SKILL.md",
          baseDir := "/w/beta", source := "workspace" }], ["/real/SKILL.md"], []⟩ :=
  by
  refine (C10_filters_before_dedup (fun _ => some "/real/SKILL.md") ["alpha"] []).2
    _ _ ?_ ?_
  · decide
  · decide

-- ===========================================================================
-- C7 — command-spec derivation
-- ===========================================================================

/-- The suffix loop returns the first free candidate index. -/
theorem uniqueLoop_finds (base : String) (used : List String) :
    ∀ (fuel idx i : Nat), idx ≤ i → i < idx + fuel →
      (∀ j, idx ≤ j → j < i → toLowerAscii (mkCandidate base j) ∈ used) →
      toLowerAscii (mkCandidate base i) ∉ used →
      uniqueLoop base used idx fuel = mkCandidate base i := by
  intro fuel
  induction fuel with
  | zero => intro idx i hle hlt; omega
  | succ f ih =>
    intro idx i hle hlt hall hfree
    rw [uniqueLoop]
    by_cases heq : idx = i
    · subst heq
      rw [if_neg hfree]
    · rw [if_pos (hall idx (Nat.le_refl idx) (by omega))]
      exact ih (idx + 1) i (by omega) (by omega)
        (fun j hj1 hj2 => hall j (by omega) hj2) hfree

/-- The suffix loop falls back to `_x` when every candidate is taken. -/
theorem uniqueLoop_exhausts (base : String) (used : List String) :
    ∀ (fuel idx : Nat),
      (∀ j, idx ≤ j → j < idx + fuel → toLowerAscii (mkCandidate base j) ∈ used) →
      uniqueLoop base used idx fuel = fallbackCandidate base := by
  intro fuel
  induction fuel with
  | zero => intro idx _; rfl
  | succ f ih =>
    intro idx hall
    rw [uniqueLoop, if_pos (hall idx (Nat.le_refl idx) (by omega))]
    exact ih (idx + 1) (fun j hj1 hj2 => hall j (by omega) (by omega))

/-- UTF-16 code units contributed by one scalar value. -/
def utf16Weight (c : Char) : Nat := if c.val < 0x10000 then 1 else 2

/-- The length fold as a sum of weights. -/
theorem utf16Len_foldl (cs : List Char) :
    ∀ n : Nat, cs.foldl (fun n c => n + (if c.val < 0x10000 then 1 else 2)) n =
      n + (cs.map utf16Weight).sum := by
  induction cs with
  | nil => intro n; simp
  | cons c cs ih =>
    intro n
    rw [List.foldl_cons, ih, List.map_cons, List.sum_cons]
    simp [utf16Weight]
    omega

/-- A UTF-16 take of `n` units weighs at most `n`. -/
theorem utf16TakeList_weight_le (cs : List Char) :
    ∀ n : Nat, ((utf16TakeList cs n).map utf16Weight).sum ≤ n := by
  induction cs with
  | nil => intro n; simp [utf16TakeList]
  | cons c rest ih =>
    intro n
    cases n with
    | zero => simp [utf16TakeList]
    | succ m =>
      rw [utf16TakeList]
      by_cases hsmall : c.val < 0x10000
      · rw [if_pos hsmall]
        have := ih m
        simp only [List.map_cons, List.sum_cons, utf16Weight, if_pos hsmall]
        omega
      · rw [if_neg hsmall]
        by_cases hroom : 2 ≤ m + 1
        · rw [if_pos hroom]
          have := ih (m - 1)
          simp only [List.map_cons, List.sum_cons, utf16Weight, if_neg hsmall]
          omega
        · rw [if_neg hroom]
          simp

/-- `utf16Len` as a weight sum. -/
theorem utf16Len_eq_sum (s : String) : utf16Len s = (s.data.map utf16Weight).sum := by
  rw [utf16Len, utf16Len_foldl]
  simp

/-- Command descriptions never exceed 100 UTF-16 units. -/
theorem specDescription_le (sk : Skill) : utf16Len (specDescription sk) ≤ 100 := by
  rw [specDescription]
  by_cases h : utf16Len (rawSpecDescription sk) > SKILL_COMMAND_DESCRIPTION_MAX_LENGTH
  · rw [if_pos h, utf16Len_eq_sum]
    rw [String.data_append, List.map_append, List.sum_append]
    have h1 := utf16TakeList_weight_le (rawSpecDescription sk).data
      (SKILL_COMMAND_DESCRIPTION_MAX_LENGTH - 1)
    have h2 : (("…" : String).data.map utf16Weight).sum = 1 := by decide
    have h3 : ((utf16Take (rawSpecDescription sk)
        (SKILL_COMMAND_DESCRIPTION_MAX_LENGTH - 1)).data.map utf16Weight).sum ≤ 99 := h1
    omega
  · rw [if_neg h]
    simp only [SKILL_COMMAND_DESCRIPTION_MAX_LENGTH] at h
    omega

/-- The sanitized command name is at most 32 characters and never empty. -/
theorem sanitize_facts (raw : String) :
    (sanitizeSkillCommandName raw).data.length ≤ 32 ∧ sanitizeSkillCommandName raw ≠ "" := by
  simp only [sanitizeSkillCommandName]
  by_cases he : (List.take SKILL_COMMAND_MAX_LENGTH
      (trimUnderscores (collapseUnderscoreRuns
        (collapseUnsafeRuns (toLowerAscii raw).data)))).isEmpty
  · rw [if_pos he]
    exact ⟨by decide, by decide⟩
  · rw [if_neg he]
    constructor
    · simp [SKILL_COMMAND_MAX_LENGTH,
        List.length_take_le 32 (trimUnderscores (collapseUnderscoreRuns
          (collapseUnsafeRuns (toLowerAscii raw).data)))]
    · intro hcontra
      rw [String.ext_iff] at hcontra
      rw [List.isEmpty_iff] at he
      exact he hcontra

/-- The spec builder emits one spec per dispatch-bearing skill in first-seen
order. -/
theorem buildSpecs_skillNames :
    ∀ (skills : List Skill) (acc : List SkillCommandSpec × List String),
      ((skills.foldl buildSpecStep acc).1).map (fun sp => sp.skillName) =
        acc.1.map (fun sp => sp.skillName) ++ skills.map (fun s => s.name) := by
  intro skills
  induction skills with
  | nil => intro acc; simp
  | cons s ss ih =>
    intro acc
    rw [List.foldl_cons, ih]
    simp [buildSpecStep]

/-- C7: two skills both sanitizing to `deploy` yield `deploy` and `deploy_2`
in first-seen order; the sanitizer always produces a non-empty name of at
most 32 characters; a base not in the used set is kept as-is; otherwise the
first free `_i` candidate (with the base truncated to fit 32) for
`i = 2 .. 999` is chosen, the `_x` fallback applying when all are taken;
descriptions are truncated to 99 units plus an ellipsis exactly when longer
than 100; and specs are produced for exactly the dispatch-carrying skills in
order. -/
theorem C7_command_specs :
    ((buildSkillCommandSpecs
      [{ name := "Deploy", description := "deploys", path := "/m/Deploy/SKILL.md",
         baseDir := "/m/Deploy", source := "managed",
         commandDispatch := some { toolName := "Bash", argMode := "raw" } },
       { name := "DEPLOY", description := "deploys too", path := "/w/DEPLOY/SKILL.md",
         baseDir := "/w/DEPLOY", source := "workspace",
         commandDispatch := some { toolName := "Bash", argMode := "raw" } }] []).map
        (fun sp => sp.name) = ["deploy", "deploy_2"]) ∧
    (∀ raw : String, (sanitizeSkillCommandName raw).data.length ≤ 32 ∧
      sanitizeSkillCommandName raw ≠ "") ∧
    (∀ (base : String) (used : List String), toLowerAscii base ∉ used →
      resolveUniqueSkillCommandName base used = base) ∧
    (∀ (base : String) (used : List String) (i : Nat), 2 ≤ i → i < 1000 →
      toLowerAscii base ∈ used →
      (∀ j, 2 ≤ j → j < i → toLowerAscii (mkCandidate base j) ∈ used) →
      toLowerAscii (mkCandidate base i) ∉ used →
      resolveUniqueSkillCommandName base used = mkCandidate base i) ∧
    (∀ (base : String) (used : List String), toLowerAscii base ∈ used →
      (∀ j, 2 ≤ j → j < 1000 → toLowerAscii (mkCandidate base j) ∈ used) →
      resolveUniqueSkillCommandName base used = fallbackCandidate base) ∧
    (∀ sk : Skill, utf16Len (specDescription sk) ≤ 100 ∧
      (utf16Len (rawSpecDescription sk) ≤ 100 →
        specDescription sk = rawSpecDescription sk) ∧
      (utf16Len (rawSpecDescription sk) > 100 →
        specDescription sk = utf16Take (rawSpecDescription sk) 99 ++ "…")) ∧
    (∀ (skills : List Skill) (reserved : List String),
      (buildSkillCommandSpecs skills reserved).map (fun sp => sp.skillName) =
        (skills.filter fun s => s.commandDispatch.isSome).map (fun s => s.name)) := by
  refine ⟨rfl, sanitize_facts, ?_, ?_, ?_, ?_, ?_⟩
  · intro base used h
    rw [resolveUniqueSkillCommandName, if_neg h]
  · intro base used i h2 h1000 hbase hall hfree
    rw [resolveUniqueSkillCommandName, if_pos hbase]
    exact uniqueLoop_finds base used 998 2 i h2 (by omega) hall hfree
  · intro base used hbase hall
    rw [resolveUniqueSkillCommandName, if_pos hbase]
    exact uniqueLoop_exhausts base used 998 2 (fun j hj1 hj2 => hall j hj1 (by omega))
  · intro sk
    refine ⟨specDescription_le sk, ?_, ?_⟩
    · intro h
      rw [specDescription, if_neg (by simp [SKILL_COMMAND_DESCRIPTION_MAX_LENGTH]; omega)]
    · intro h
      rw [specDescription,
        if_pos (by simp [SKILL_COMMAND_DESCRIPTION_MAX_LENGTH]; omega)]
      rfl
  · intro skills reserved
    rw [buildSkillCommandSpecs, buildSpecs_skillNames]
    rfl

/-- Witness instantiating each conditional part of C7 concretely. -/
theorem C7_command_specs_witness :
    ((sanitizeSkillCommandName "  Deploy The-App!  ").data.length ≤ 32 ∧
      sanitizeSkillCommandName "  Deploy The-App!  " ≠ "") ∧
    resolveUniqueSkillCommandName "deploy" [] = "deploy" ∧
    resolveUniqueSkillCommandName "deploy" ["deploy"] = mkCandidate "deploy" 2 ∧
    resolveUniqueSkillCommandName "b"
      ((List.range' 2 998).map (fun i => toLowerAscii (mkCandidate "b" i)) ++
        [toLowerAscii "b"]) = fallbackCandidate "b" ∧
    specDescription
      { name := "n", description := String.mk (List.replicate 101 'a'),
        path := "/p", baseDir := "/b", source := "managed" } =
      utf16Take (rawSpecDescription
        { name := "n", description := String.mk (List.replicate 101 'a'),
          path := "/p", baseDir := "/b", source := "managed" }) 99 ++ "…" := by
  refine ⟨C7_command_specs.2.1 _,
    C7_command_specs.2.2.1 "deploy" [] (by decide),
    C7_command_specs.2.2.2.1 "deploy" ["deploy"] 2 (by decide) (by decide) (by decide)
      (fun j hj2 hjlt => absurd (Nat.lt_of_le_of_lt hj2 hjlt) (lt_irrefl 2)) (by decide),
    C7_command_specs.2.2.2.2.1 "b" _
      (List.mem_append_right _ (List.mem_singleton.mpr rfl))
      (fun j hj1 hj2 => List.mem_append_left _
        (List.mem_map_of_mem _ (List.mem_range'.mpr ⟨j - 2, by omega, by omega⟩))),
    (C7_command_specs.2.2.2.2.2.1 _).2.2 (by decide)⟩
